import Mathlib

/-!
Shallow embedding of the timescale-gravity backtest core.

Sources embedded here:
* src/backtest_tsdb.py — indicators (compute_indicators), session/trend helpers,
  scalp_signal, bar_path_tuple, decide_exit_this_bar, and the run_backtest scan loop;
* src/app/strategies/random_scalp.py — RandomScalpRunner._simulate_symbol, the
  cadence-triggered dialect of the engine.

Modelling conventions:
* prices and money are rationals (ℚ); pandas/numpy NaN is modelled by Option ℚ
  exactly where the source produces NaN (true range at index 0 via close.shift(1),
  rolling ATR before the window fills); comparisons against NaN are false, which
  Option ℚ reproduces by pattern matching;
* a timestamp carries a calendar-date code and a time-of-day code (minutes), the
  two projections the engine actually reads (ts.date(), ts.time());
* the Python while-loop of run_backtest is a fuel-indexed structural recursion;
  the scan index grows by at least one per iteration and starts at 1, so fuel =
  series length is enough for the recursion to terminate only by reaching the end
  of the series, i.e. the fuelled loop equals the unbounded while-loop;
* the field name for the bar open price is openPx because open is a Lean keyword.
-/

attribute [local semireducible] Rat.mul Rat.add Rat.sub Rat.inv

namespace TG

/-- Timestamp: calendar-date code plus time-of-day (minutes since midnight). -/
structure Ts where
  date : ℕ
  tod : ℕ
deriving DecidableEq, Repr

/-- One OHLCV(+OI) bar, the row layout handed to the engine. -/
structure Bar where
  ts : Ts
  openPx : ℚ
  high : ℚ
  low : ℚ
  close : ℚ
  volume : ℚ
  oi : ℚ
deriving DecidableEq, Repr

def dfltBar : Bar := ⟨⟨0, 0⟩, 0, 0, 0, 0, 0, 0⟩

/-- Position side, the "LONG"/"SHORT" strings of the source. -/
inductive Side where
  | long
  | short
deriving DecidableEq, Repr

/-- Exit-reason strings of the source, as a closed enumeration. -/
inductive ExitReason where
  | targetHit
  | stoplossHit
  | squareOffEod
  | forcedExitNewEntry
  | endOfData
  | closeAtBarEnd
deriving DecidableEq, Repr

/-- EXIT_BAR_PATH ∈ {"color","bull","bear","worst"}. -/
inductive ExitBarPath where
  | color
  | bull
  | bear
  | worst
deriving DecidableEq, Repr

/-- TRADE_DIRECTION ∈ {"both","long_only","short_only"}. -/
inductive TradeDirection where
  | both
  | longOnly
  | shortOnly
deriving DecidableEq, Repr

/-- The module-level configuration globals of backtest_tsdb.py, gathered into one
record (SESSION_WINDOWS entries are inclusive time-of-day pairs, as in in_session). -/
structure Config where
  targetPoints : ℚ
  stoplossPoints : ℚ
  emaFast : ℕ
  emaSlow : ℕ
  atrWindow : ℕ
  atrMinPoints : ℚ
  sessionWindows : List (ℕ × ℕ)
  dailyLossCap : ℚ
  exitBarPath : ExitBarPath
  brokeragePerTrade : ℚ
  slippagePoints : ℚ
  confirmTrendAtEntry : Bool
  tradeDirection : TradeDirection
  enableEodSquareOff : Bool
  squareOffTime : ℕ
  qtyPerPoint : ℚ
  startingCapital : ℚ
deriving DecidableEq, Repr

/-! ## Indicator Engine (compute_indicators) -/

/-- Tail of the pandas ewm(span, adjust=False) recurrence: given the smoothing
factor and the previous EMA value, emits the EMA over the remaining closes. -/
def emaStep (a prev : ℚ) : List ℚ → List ℚ
  | [] => []
  | c :: cs =>
    let e := a * c + (1 - a) * prev
    e :: emaStep a e cs

/-- close.ewm(span, adjust=False).mean(): ema[0] = close[0],
ema[t] = α close[t] + (1-α) ema[t-1] with α = 2/(span+1). -/
def emaSeries (span : ℕ) : List ℚ → List ℚ
  | [] => []
  | c :: cs => c :: emaStep (2 / ((span : ℚ) + 1)) c cs

/-- tr = np.maximum(high-low, np.maximum(|high-close.shift(1)|, |low-close.shift(1)|)).
close.shift(1) is NaN at index 0 and np.maximum propagates NaN, so the head entry is
none; the accumulator is the previous bar's close. -/
def trSeries : Option ℚ → List Bar → List (Option ℚ)
  | _, [] => []
  | none, b :: bs => none :: trSeries (some b.close) bs
  | some pc, b :: bs =>
      some (max (b.high - b.low) (max |b.high - pc| |b.low - pc|)) :: trSeries (some b.close) bs

/-- Sequence a window of possibly-NaN values: any NaN poisons the window. -/
def seqOpt : List (Option ℚ) → Option (List ℚ)
  | [] => some []
  | none :: _ => none
  | some x :: xs => (seqOpt xs).map (fun v => x :: v)

/-- tr.rolling(window=w).mean() with the pandas default min_periods = w: the value at
index t is the mean of the w entries ending at t, NaN while fewer than w rows exist
or while the window still contains a NaN. -/
def rollingMean (w : ℕ) (xs : List (Option ℚ)) : List (Option ℚ) :=
  (List.range xs.length).map (fun t =>
    if t + 1 < w then none
    else
      match seqOpt ((xs.take (t + 1)).drop (t + 1 - w)) with
      | none => none
      | some vs => some (vs.sum / (w : ℚ)))

/-- One row of the dataframe after compute_indicators. -/
structure IndBar where
  ts : Ts
  openPx : ℚ
  high : ℚ
  low : ℚ
  close : ℚ
  emaFast : ℚ
  emaSlow : ℚ
  atr : Option ℚ
deriving DecidableEq, Repr

def dfltIndBar : IndBar := ⟨⟨0, 0⟩, 0, 0, 0, 0, 0, 0, none⟩

/-- compute_indicators: append ema_fast, ema_slow, tr, atr columns to the bars. -/
def computeIndicators (cfg : Config) (bars : List Bar) : List IndBar :=
  let closes := bars.map Bar.close
  let ef := emaSeries cfg.emaFast closes
  let es := emaSeries cfg.emaSlow closes
  let atrs := rollingMean cfg.atrWindow (trSeries none bars)
  (List.range bars.length).map (fun t =>
    let b := bars.getD t dfltBar
    { ts := b.ts, openPx := b.openPx, high := b.high, low := b.low, close := b.close,
      emaFast := ef.getD t 0, emaSlow := es.getD t 0, atr := atrs.getD t none })

/-! ## Helpers and Signal Detector -/

/-- in_session: the bar time-of-day lies in some window, both bounds inclusive. -/
def inSession (cfg : Config) (tod : ℕ) : Prop :=
  ∃ w ∈ cfg.sessionWindows, w.1 ≤ tod ∧ tod ≤ w.2

instance (cfg : Config) (tod : ℕ) : Decidable (inSession cfg tod) := by
  unfold inSession; infer_instance

/-- trend_up: ema_fast > ema_slow on the row. -/
def trendUp (b : IndBar) : Prop := b.emaFast > b.emaSlow

/-- trend_down: ema_fast < ema_slow on the row. -/
def trendDown (b : IndBar) : Prop := b.emaFast < b.emaSlow

instance (b : IndBar) : Decidable (trendUp b) := by unfold trendUp; infer_instance
instance (b : IndBar) : Decidable (trendDown b) := by unfold trendDown; infer_instance

/-- atr_ok: df.atr[i] >= ATR_MIN_POINTS; a NaN atr compares false. -/
def atrOk (cfg : Config) (b : IndBar) : Prop :=
  match b.atr with
  | none => False
  | some a => a ≥ cfg.atrMinPoints

instance (cfg : Config) (b : IndBar) : Decidable (atrOk cfg b) := by
  unfold atrOk; split <;> infer_instance

/-- scalp_signal: breakout plus trend filter, LONG checked first, gated by session
window, ATR floor and the direction bias; None at index 0. -/
def scalpSignal (cfg : Config) (idf : List IndBar) (i : ℕ) : Option Side :=
  if i = 0 then none
  else
    let prev := idf.getD (i - 1) dfltIndBar
    let curr := idf.getD i dfltIndBar
    if ¬ inSession cfg curr.ts.tod then none
    else if ¬ atrOk cfg curr then none
    else if curr.high > prev.high ∧ trendUp curr ∧
        (cfg.tradeDirection = TradeDirection.both ∨ cfg.tradeDirection = TradeDirection.longOnly) then
      some Side.long
    else if curr.low < prev.low ∧ trendDown curr ∧
        (cfg.tradeDirection = TradeDirection.both ∨ cfg.tradeDirection = TradeDirection.shortOnly) then
      some Side.short
    else none

/-! ## Bar-Path Resolver (bar_path_tuple, decide_exit_this_bar) -/

/-- The three intrabar path shapes bar_path_tuple can return:
("open","low","high","close"), ("open","high","low","close"), ("worst",). -/
inductive Path where
  | olhc
  | ohlc
  | worstPath
deriving DecidableEq, Repr

/-- bar_path_tuple: bull ↦ o-l-h-c, bear ↦ o-h-l-c, color picks by candle colour
(close ≥ open ↦ bull ordering), worst ↦ the sentinel. -/
def barPathTuple (cfg : Config) (b : IndBar) : Path :=
  match cfg.exitBarPath with
  | ExitBarPath.bull => Path.olhc
  | ExitBarPath.bear => Path.ohlc
  | ExitBarPath.color => if b.close ≥ b.openPx then Path.olhc else Path.ohlc
  | ExitBarPath.worst => Path.worstPath

/-- Lines 184-188 of decide_exit_this_bar: the shared tail after the per-path
checks. -/
def fallthroughExit (tp sl : ℚ) (hitTp hitSl : Prop) [Decidable hitTp]
    [Decidable hitSl] : Option (ℚ × ExitReason) :=
  if hitTp ∧ hitSl then some (sl, ExitReason.stoplossHit)
  else if hitTp then some (tp, ExitReason.targetHit)
  else some (sl, ExitReason.stoplossHit)

/-- decide_exit_this_bar: returns none for (False, None, None) and
some (price, reason) for (True, price, reason). The entryPrice argument is unused
in the source as well. -/
def decideExit (cfg : Config) (position : Side) (entryPrice : ℚ) (bar : IndBar)
    (tp sl : ℚ) : Option (ℚ × ExitReason) :=
  let high := bar.high
  let low := bar.low
  let hitTp := if position = Side.long then high ≥ tp else low ≤ tp
  let hitSl := if position = Side.long then low ≤ sl else high ≥ sl
  if ¬ hitTp ∧ ¬ hitSl then none
  else
    let path := barPathTuple cfg bar
    if path = Path.worstPath then
      if hitTp ∧ hitSl then some (sl, ExitReason.stoplossHit)
      else if hitTp then some (tp, ExitReason.targetHit)
      else some (sl, ExitReason.stoplossHit)
    else if position = Side.long then
      if path = Path.olhc then
        if low ≤ sl then some (sl, ExitReason.stoplossHit)
        else if high ≥ tp then some (tp, ExitReason.targetHit)
        else fallthroughExit tp sl hitTp hitSl
      else
        if high ≥ tp then some (tp, ExitReason.targetHit)
        else if low ≤ sl then some (sl, ExitReason.stoplossHit)
        else fallthroughExit tp sl hitTp hitSl
    else
      if path = Path.olhc then
        if low ≤ tp then some (tp, ExitReason.targetHit)
        else if high ≥ sl then some (sl, ExitReason.stoplossHit)
        else fallthroughExit tp sl hitTp hitSl
      else
        if high ≥ sl then some (sl, ExitReason.stoplossHit)
        else if low ≤ tp then some (tp, ExitReason.targetHit)
        else fallthroughExit tp sl hitTp hitSl

/-! ## Position State Machine (run_backtest) -/

/-- The emitted trade row of run_backtest. -/
structure Trade where
  entryTime : Ts
  exitTime : Ts
  side : Side
  entry : ℚ
  exit : ℚ
  pnlPoints : ℚ
  grossRupees : ℚ
  costsRupees : ℚ
  pnlRupees : ℚ
  equity : ℚ
  exitReason : ExitReason
deriving DecidableEq, Repr

/-- The open-position slot (side, entry_price, entry_time, tp_level, sl_level). -/
structure Pos where
  side : Side
  entryPrice : ℚ
  entryTime : Ts
  tp : ℚ
  sl : ℚ
deriving DecidableEq, Repr

/-- Mutable loop state of run_backtest: position slot, equity, daily_pnl map,
loss_stopped_days set, and the accumulated results. -/
structure EngState where
  pos : Option Pos
  equity : ℚ
  dailyPnl : ℕ → ℚ
  stoppedDays : List ℕ
  results : List Trade

/-- is_last_bar_of_day: past the end, or the next bar is on a different date. -/
def isLastBarOfDay (idf : List IndBar) (i : ℕ) : Prop :=
  i + 1 ≥ idf.length ∨ (idf.getD (i + 1) dfltIndBar).ts.date ≠ (idf.getD i dfltIndBar).ts.date

instance (idf : List IndBar) (i : ℕ) : Decidable (isLastBarOfDay idf i) := by
  unfold isLastBarOfDay; infer_instance

/-- The shared bookkeeping of both exit blocks of run_backtest: P&L, costs, equity,
daily_pnl update, loss-cap flagging, and the appended results row. -/
def closeTrade (cfg : Config) (s : EngState) (p : Pos) (exitPx : ℚ) (row : IndBar)
    (reason : ExitReason) : EngState :=
  let pnlPoints := if p.side = Side.long then exitPx - p.entryPrice else p.entryPrice - exitPx
  let grossRupees := pnlPoints * cfg.qtyPerPoint
  let slippageRupee := cfg.slippagePoints * cfg.qtyPerPoint * 2
  let feesRupee := 2 * cfg.brokeragePerTrade
  let costsRupees := slippageRupee + feesRupee
  let pnlRupees := grossRupees - costsRupees
  let newEquity := s.equity + pnlRupees
  let ed := row.ts.date
  let newDayPnl := s.dailyPnl ed + pnlRupees
  { pos := none,
    equity := newEquity,
    dailyPnl := fun d => if d = ed then newDayPnl else s.dailyPnl d,
    stoppedDays := if newDayPnl ≤ cfg.dailyLossCap then ed :: s.stoppedDays else s.stoppedDays,
    results := s.results ++ [{
      entryTime := p.entryTime, exitTime := row.ts, side := p.side,
      entry := p.entryPrice, exit := exitPx, pnlPoints := pnlPoints,
      grossRupees := grossRupees, costsRupees := costsRupees, pnlRupees := pnlRupees,
      equity := newEquity, exitReason := reason }] }

/-- The while-loop of run_backtest, fuel-indexed. Every iteration advances the scan
index by one or two, so any fuel ≥ idf.length - i makes the recursion stop only at
i ≥ idf.length, exactly like the source's while i < n. -/
def loop (cfg : Config) (idf : List IndBar) : ℕ → ℕ → EngState → EngState
  | 0, _, s => s
  | fuel + 1, i, s =>
    if i < idf.length then
      let row := idf.getD i dfltIndBar
      match s.pos with
      | some p =>
        match decideExit cfg p.side p.entryPrice row p.tp p.sl with
        | some (exitPx, reason) =>
            loop cfg idf fuel (i + 1) (closeTrade cfg s p exitPx row reason)
        | none =>
            if cfg.enableEodSquareOff = true ∧
                (isLastBarOfDay idf i ∨ row.ts.tod ≥ cfg.squareOffTime) then
              loop cfg idf fuel (i + 1) (closeTrade cfg s p row.close row ExitReason.squareOffEod)
            else
              loop cfg idf fuel (i + 1) s
      | none =>
        if row.ts.date ∈ s.stoppedDays then loop cfg idf fuel (i + 1) s
        else
          match scalpSignal cfg idf i with
          | none => loop cfg idf fuel (i + 1) s
          | some sig =>
            if cfg.confirmTrendAtEntry = true ∧
                ((sig = Side.long ∧ ¬ trendUp row) ∨ (sig = Side.short ∧ ¬ trendDown row)) then
              loop cfg idf fuel (i + 1) s
            else if i + 1 < idf.length then
              let nb := idf.getD (i + 1) dfltIndBar
              let entryPrice := nb.openPx
              loop cfg idf fuel (i + 2)
                { s with pos := some {
                    side := sig, entryPrice := entryPrice, entryTime := nb.ts,
                    tp := if sig = Side.long then entryPrice + cfg.targetPoints
                          else entryPrice - cfg.targetPoints,
                    sl := if sig = Side.long then entryPrice - cfg.stoplossPoints
                          else entryPrice + cfg.stoplossPoints } }
            else loop cfg idf fuel (i + 1) s
    else s

/-- Initial state of run_backtest. -/
def initState (cfg : Config) : EngState :=
  { pos := none, equity := cfg.startingCapital, dailyPnl := fun _ => 0,
    stoppedDays := [], results := [] }

/-- run_backtest down to its final loop state (the source then discards the open
position slot and returns only the results). -/
def runBacktestFull (cfg : Config) (bars : List Bar) : EngState :=
  let idf := computeIndicators cfg bars
  loop cfg idf idf.length 1 (initState cfg)

/-- run_backtest: the emitted trade rows, in emission order. -/
def runBacktest (cfg : Config) (bars : List Bar) : List Trade :=
  (runBacktestFull cfg bars).results

/-! ## Cadence dialect (random_scalp.py, RandomScalpRunner._simulate_symbol) -/

/-- StrategyParams of random_scalp.py. -/
structure RSParams where
  tradeEveryNBars : ℕ
  profitTargetRupees : ℚ
  stopLossRupees : ℚ
  quantityMultiplier : ℚ
  brokeragePerTrade : ℚ
  slippageRupees : ℚ
  closeAtBarClose : Bool
  waitForExit : Bool
deriving DecidableEq, Repr

/-- TradeResult of random_scalp.py. -/
structure RSTrade where
  entryTime : Ts
  exitTime : Ts
  symbol : String
  side : Side
  entry : ℚ
  exit : ℚ
  grossRupees : ℚ
  costsRupees : ℚ
  pnlRupees : ℚ
  exitReason : ExitReason
  cumulativeEquity : ℚ
deriving DecidableEq, Repr

/-- The open_position dict of _simulate_symbol. -/
structure RSPos where
  entryPrice : ℚ
  entryTime : Ts
deriving DecidableEq, Repr

/-- Loop state of _simulate_symbol. -/
structure RSState where
  openPosition : Option RSPos
  barsSinceEntry : ℕ
  equity : ℚ
  trades : List RSTrade
deriving DecidableEq, Repr

/-- qty_rupees = qty_per_point * quantity_multiplier. -/
def rsQtyRupees (qtyPerPoint : ℚ) (p : RSParams) : ℚ := qtyPerPoint * p.quantityMultiplier

/-- costs = broker_fee + slippage = brokerage*2*mult + slippage_rupees*mult. -/
def rsCosts (p : RSParams) : ℚ :=
  p.brokeragePerTrade * 2 * p.quantityMultiplier + p.slippageRupees * p.quantityMultiplier

/-- trade_gap = max(trade_every_n_bars, 1). -/
def rsGap (p : RSParams) : ℕ := max p.tradeEveryNBars 1

/-- Build one TradeResult row and the updated equity. -/
def rsMkTrade (sym : String) (qtyRupees costs : ℚ) (pos : RSPos) (exitPx : ℚ) (ts : Ts)
    (reason : ExitReason) (equity : ℚ) : RSTrade × ℚ :=
  let pnlPoints := exitPx - pos.entryPrice
  let gross := pnlPoints * qtyRupees
  let pnl := gross - costs
  let newEq := equity + pnl
  ({ entryTime := pos.entryTime, exitTime := ts, symbol := sym, side := Side.long,
     entry := pos.entryPrice, exit := exitPx, grossRupees := gross, costsRupees := costs,
     pnlRupees := pnl, exitReason := reason, cumulativeEquity := newEq }, newEq)

/-- Lines 214-233 of random_scalp.py: the per-bar exit decision for an open
position. The stop check is skipped entirely when stop_loss is not positive. -/
def rsExitDecision (p : RSParams) (pos : RSPos) (b : Bar) : Option (ℚ × ExitReason) :=
  let targetPrice := pos.entryPrice + p.profitTargetRupees
  let stopPrice : Option ℚ :=
    if p.stopLossRupees > 0 then some (pos.entryPrice - p.stopLossRupees) else none
  if b.high ≥ targetPrice then some (targetPrice, ExitReason.targetHit)
  else
    match stopPrice with
    | some sp =>
      if b.low ≤ sp then some (sp, ExitReason.stoplossHit)
      else if p.closeAtBarClose = true then some (b.close, ExitReason.closeAtBarEnd)
      else none
    | none =>
      if p.closeAtBarClose = true then some (b.close, ExitReason.closeAtBarEnd)
      else none

/-- The body of the for-loop of _simulate_symbol for one (idx, bar) pair. -/
def rsStep (sym : String) (p : RSParams) (qtyRupees costs : ℚ) (gap : ℕ) (idx : ℕ)
    (b : Bar) (s : RSState) : RSState :=
  let s1 :=
    match s.openPosition with
    | none => s
    | some pos =>
      match rsExitDecision p pos b with
      | some (px, reason) =>
        let tr := rsMkTrade sym qtyRupees costs pos px b.ts reason s.equity
        { openPosition := none, barsSinceEntry := 0, equity := tr.2,
          trades := s.trades ++ [tr.1] }
      | none => { s with barsSinceEntry := s.barsSinceEntry + 1 }
  let shouldEnter : Bool :=
    match s1.openPosition with
    | none => decide (idx % gap = 0)
    | some _ => (!p.waitForExit) && decide (idx % gap = 0)
  if shouldEnter then
    let s2 :=
      match s1.openPosition with
      | some pos =>
        if p.waitForExit = false then
          let tr := rsMkTrade sym qtyRupees costs pos b.openPx b.ts
            ExitReason.forcedExitNewEntry s1.equity
          { s1 with equity := tr.2, trades := s1.trades ++ [tr.1] }
        else s1
      | none => s1
    let np : RSPos := { entryPrice := b.openPx, entryTime := b.ts }
    { s2 with openPosition := some np, barsSinceEntry := 0 }
  else s1

/-- The enumerate(df.iterrows()) fold of _simulate_symbol. -/
def rsLoop (sym : String) (p : RSParams) (qtyRupees costs : ℚ) (gap : ℕ) :
    ℕ → RSState → List Bar → RSState
  | _, s, [] => s
  | idx, s, b :: rest => rsLoop sym p qtyRupees costs gap (idx + 1) (rsStep sym p qtyRupees costs gap idx b s) rest

/-- Final fold state of _simulate_symbol before the trailing end-of-data block. -/
def rsFinal (sym : String) (qtyPerPoint capital : ℚ) (p : RSParams) (bars : List Bar) :
    RSState :=
  rsLoop sym p (rsQtyRupees qtyPerPoint p) (rsCosts p) (rsGap p) 0
    { openPosition := none, barsSinceEntry := 0, equity := capital, trades := [] } bars

/-- _simulate_symbol: empty data returns no trades; otherwise run the fold and
force-close any open position at the last bar's close with reason "End of Data". -/
def rsSimulate (sym : String) (qtyPerPoint capital : ℚ) (p : RSParams) (bars : List Bar) :
    List RSTrade :=
  if bars.isEmpty then []
  else
    let fin := rsFinal sym qtyPerPoint capital p bars
    match fin.openPosition with
    | none => fin.trades
    | some pos =>
      let lastBar := bars.getLastD dfltBar
      let tr := rsMkTrade sym (rsQtyRupees qtyPerPoint p) (rsCosts p) pos lastBar.close
        lastBar.ts ExitReason.endOfData fin.equity
      fin.trades ++ [tr.1]

/-! ## Concrete demonstration data -/

/-- A permissive configuration: all-day session, ATR window 1 with floor 0,
EMA 1/3 so a rising series trends up, no costs, confirm off, colour path. -/
def demoCfg : Config :=
  { targetPoints := 10, stoplossPoints := 2, emaFast := 1, emaSlow := 3, atrWindow := 1,
    atrMinPoints := 0, sessionWindows := [(0, 1440)], dailyLossCap := -1000,
    exitBarPath := ExitBarPath.color, brokeragePerTrade := 0, slippagePoints := 0,
    confirmTrendAtEntry := false, tradeDirection := TradeDirection.both,
    enableEodSquareOff := false, squareOffTime := 1440, qtyPerPoint := 1,
    startingCapital := 100000 }

def demoB0 : Bar := ⟨⟨0, 1⟩, 100, (201 : ℚ) / 2, (199 : ℚ) / 2, 100, 0, 0⟩

/-- Bar 2: breaks the previous high while the trend is up, a LONG signal bar. -/
def demoB1 : Bar := ⟨⟨0, 2⟩, 100, (203 : ℚ) / 2, (499 : ℚ) / 5, 101, 0, 0⟩

/-- Bar 3: the entry bar (open 102, so target 112 and stop 100); its high/low
reach neither threshold. -/
def demoB2 : Bar := ⟨⟨0, 3⟩, 102, (205 : ℚ) / 2, (203 : ℚ) / 2, 102, 0, 0⟩

/-- Bar 4: touches the target 112 without touching the stop. -/
def demoB3 : Bar := ⟨⟨0, 4⟩, 106, 113, 105, 110, 0, 0⟩

/-- Bar 4 variant: gaps above the target (low 118 > target 112). -/
def demoB3gap : Bar := ⟨⟨0, 4⟩, 120, 125, 118, 121, 0, 0⟩

/-- Bar 4 variant: dips to 101.9, at/below a zero-distance stop at 102. -/
def demoB3dip : Bar := ⟨⟨0, 4⟩, 103, 105, (1019 : ℚ) / 10, 104, 0, 0⟩

/-- demoCfg with the EOD square-off enabled, as in the three-bar scenario. -/
def demoCfgEod : Config := { demoCfg with enableEodSquareOff := true }

/-- demoCfg with a non-positive stoploss distance. -/
def demoCfgZeroStop : Config := { demoCfg with stoplossPoints := 0 }

/-- Cadence-dialect parameters that leave the position open until the data ends:
hold across bars, far target, wait for exit. -/
def demoRsParams : RSParams :=
  { tradeEveryNBars := 1, profitTargetRupees := 10, stopLossRupees := (1 : ℚ) / 2,
    quantityMultiplier := 1, brokeragePerTrade := 0, slippageRupees := 0,
    closeAtBarClose := false, waitForExit := true }

/-- demoRsParams with the stop distance zeroed out. -/
def demoRsZeroStop : RSParams := { demoRsParams with stopLossRupees := 0 }

/-! ## Resolver and signal lemmas -/

/-- C5: under exit_bar_path = "worst", a bar that touches both the target and the
stop of an open position resolves to "Stoploss Hit" at exactly the stop level. -/
theorem worst_path_both_touched_is_stop (cfg : Config) (position : Side)
    (entryPrice : ℚ) (bar : IndBar) (tp sl : ℚ)
    (hw : cfg.exitBarPath = ExitBarPath.worst)
    (htp : if position = Side.long then bar.high ≥ tp else bar.low ≤ tp)
    (hsl : if position = Side.long then bar.low ≤ sl else bar.high ≥ sl) :
    decideExit cfg position entryPrice bar tp sl = some (sl, ExitReason.stoplossHit) := by
  unfold decideExit barPathTuple
  rw [hw]
  cases position <;> simp_all

/-- Witness for the worst-path theorem at a concrete both-touched bar. -/
theorem worst_path_both_touched_is_stop_witness :
    ({ demoCfg with exitBarPath := ExitBarPath.worst } : Config).exitBarPath =
        ExitBarPath.worst ∧
    decideExit { demoCfg with exitBarPath := ExitBarPath.worst } Side.long 102
      ⟨⟨0, 4⟩, 120, 125, 98, 121, 0, 0, none⟩ 112 100 =
      some (100, ExitReason.stoplossHit) := by
  refine ⟨rfl, worst_path_both_touched_is_stop _ _ _ _ _ _ rfl ?_ ?_⟩ <;> decide

/-- C8: a signal is only ever returned on a bar whose time-of-day lies inside some
session window (inclusive bounds) and whose ATR is defined and at least the floor. -/
theorem signal_requires_session_and_atr (cfg : Config) (idf : List IndBar) (i : ℕ)
    (sig : Side) (h : scalpSignal cfg idf i = some sig) :
    inSession cfg (idf.getD i dfltIndBar).ts.tod ∧ atrOk cfg (idf.getD i dfltIndBar) := by
  unfold scalpSignal at h
  split_ifs at h with h0 h1 h2 h3 h4 <;> simp_all

/-- Witness: the LONG signal on bar index 1 of the demo series is in session with
an adequate ATR. -/
theorem signal_requires_session_and_atr_witness :
    scalpSignal demoCfg (computeIndicators demoCfg [demoB0, demoB1, demoB2, demoB3]) 1 =
        some Side.long ∧
    inSession demoCfg
        ((computeIndicators demoCfg [demoB0, demoB1, demoB2, demoB3]).getD 1 dfltIndBar).ts.tod ∧
    atrOk demoCfg
        ((computeIndicators demoCfg [demoB0, demoB1, demoB2, demoB3]).getD 1 dfltIndBar) :=
  ⟨by decide, signal_requires_session_and_atr demoCfg
    (computeIndicators demoCfg [demoB0, demoB1, demoB2, demoB3]) 1 Side.long (by decide)⟩

/-- The Signal Detector with the SHORT breakout test evaluated before the LONG one;
used to show the source's LONG-first order is immaterial when trade_direction = both. -/
def scalpSignalShortFirst (cfg : Config) (idf : List IndBar) (i : ℕ) : Option Side :=
  if i = 0 then none
  else
    let prev := idf.getD (i - 1) dfltIndBar
    let curr := idf.getD i dfltIndBar
    if ¬ inSession cfg curr.ts.tod then none
    else if ¬ atrOk cfg curr then none
    else if curr.low < prev.low ∧ trendDown curr ∧
        (cfg.tradeDirection = TradeDirection.both ∨ cfg.tradeDirection = TradeDirection.shortOnly) then
      some Side.short
    else if curr.high > prev.high ∧ trendUp curr ∧
        (cfg.tradeDirection = TradeDirection.both ∨ cfg.tradeDirection = TradeDirection.longOnly) then
      some Side.long
    else none

/-- C10: the LONG and SHORT signal conditions are mutually exclusive on any bar
(ema_fast > ema_slow versus ema_fast < ema_slow), so with trade_direction = both the
LONG-first evaluation order never changes the returned signal. -/
theorem signal_sides_mutually_exclusive (cfg : Config) (idf : List IndBar) (i : ℕ)
    (hd : cfg.tradeDirection = TradeDirection.both) :
    ¬ (trendUp (idf.getD i dfltIndBar) ∧ trendDown (idf.getD i dfltIndBar)) ∧
    scalpSignal cfg idf i = scalpSignalShortFirst cfg idf i := by
  constructor
  · rintro ⟨hu, hdn⟩
    exact absurd hdn (not_lt.mpr (le_of_lt hu))
  · unfold scalpSignal scalpSignalShortFirst
    dsimp only
    split_ifs
    all_goals try rfl
    rename_i hLC hSC
    exact absurd hSC.2.1 (not_lt.mpr (le_of_lt hLC.2.1))

/-- Witness: on the demo series with direction "both", bar 1 returns LONG under
either evaluation order, and the trend conditions exclude each other. -/
theorem signal_sides_mutually_exclusive_witness :
    demoCfg.tradeDirection = TradeDirection.both ∧
    (¬ (trendUp ((computeIndicators demoCfg [demoB0, demoB1, demoB2, demoB3]).getD 1 dfltIndBar) ∧
        trendDown ((computeIndicators demoCfg [demoB0, demoB1, demoB2, demoB3]).getD 1 dfltIndBar)) ∧
      scalpSignal demoCfg (computeIndicators demoCfg [demoB0, demoB1, demoB2, demoB3]) 1 =
        scalpSignalShortFirst demoCfg (computeIndicators demoCfg [demoB0, demoB1, demoB2, demoB3]) 1) :=
  ⟨rfl, signal_sides_mutually_exclusive _ _ _ rfl⟩

/-- A LONG signal requires the trend-up condition on the same bar. -/
theorem scalpSignal_long_trendUp (cfg : Config) (idf : List IndBar) (i : ℕ)
    (h : scalpSignal cfg idf i = some Side.long) : trendUp (idf.getD i dfltIndBar) := by
  unfold scalpSignal at h
  dsimp only at h
  split_ifs at h with h0 h1 h2 h3 h4 <;> simp_all

/-- A SHORT signal requires the trend-down condition on the same bar. -/
theorem scalpSignal_short_trendDown (cfg : Config) (idf : List IndBar) (i : ℕ)
    (h : scalpSignal cfg idf i = some Side.short) : trendDown (idf.getD i dfltIndBar) := by
  unfold scalpSignal at h
  dsimp only at h
  split_ifs at h with h0 h1 h2 h3 h4 <;> simp_all

/-- A signal never fires at index 0. -/
theorem scalpSignal_ne_zero (cfg : Config) (idf : List IndBar) (i : ℕ) (sig : Side)
    (h : scalpSignal cfg idf i = some sig) : i ≠ 0 := by
  intro h0
  rw [h0] at h
  simp [scalpSignal] at h

/-! ## C9: the confirm-trend-at-entry re-check is a no-op -/

/-- The scan loop is insensitive to the confirm_trend_at_entry flag: whenever a
signal fires, the trend condition it would re-check already holds on that bar, so
the discard branch is unreachable. -/
theorem loop_confirm_insensitive (cfg : Config) (idf : List IndBar) (b1 b2 : Bool) :
    ∀ (fuel i : ℕ) (s : EngState),
      loop { cfg with confirmTrendAtEntry := b1 } idf fuel i s =
      loop { cfg with confirmTrendAtEntry := b2 } idf fuel i s := by
  intro fuel
  induction fuel with
  | zero => intro i s; rfl
  | succ fuel ih =>
    intro i s
    simp only [loop]
    by_cases hi : i < idf.length
    · simp only [if_pos hi]
      cases hp : s.pos with
      | some p =>
        dsimp only
        rw [show decideExit { cfg with confirmTrendAtEntry := b1 } p.side p.entryPrice
            (idf.getD i dfltIndBar) p.tp p.sl =
          decideExit { cfg with confirmTrendAtEntry := b2 } p.side p.entryPrice
            (idf.getD i dfltIndBar) p.tp p.sl from rfl]
        rw [show closeTrade { cfg with confirmTrendAtEntry := b1 } =
          closeTrade { cfg with confirmTrendAtEntry := b2 } from rfl]
        cases hde : decideExit { cfg with confirmTrendAtEntry := b2 } p.side p.entryPrice
            (idf.getD i dfltIndBar) p.tp p.sl with
        | some pr => exact ih (i + 1) _
        | none =>
          rw [show ({ cfg with confirmTrendAtEntry := b1 } : Config).enableEodSquareOff =
            ({ cfg with confirmTrendAtEntry := b2 } : Config).enableEodSquareOff from rfl]
          rw [show ({ cfg with confirmTrendAtEntry := b1 } : Config).squareOffTime =
            ({ cfg with confirmTrendAtEntry := b2 } : Config).squareOffTime from rfl]
          split_ifs <;> exact ih (i + 1) _
      | none =>
        dsimp only
        rw [show scalpSignal { cfg with confirmTrendAtEntry := b1 } idf i =
          scalpSignal { cfg with confirmTrendAtEntry := b2 } idf i from rfl]
        by_cases hstop : (idf.getD i dfltIndBar).ts.date ∈ s.stoppedDays
        · rw [if_pos hstop, if_pos hstop]
          exact ih (i + 1) s
        · rw [if_neg hstop, if_neg hstop]
          cases hsig : scalpSignal { cfg with confirmTrendAtEntry := b2 } idf i with
          | none => exact ih (i + 1) s
          | some sig =>
            dsimp only
            have hfalse : ¬ ((sig = Side.long ∧ ¬ trendUp (idf.getD i dfltIndBar)) ∨
                (sig = Side.short ∧ ¬ trendDown (idf.getD i dfltIndBar))) := by
              rintro (⟨rfl, hnt⟩ | ⟨rfl, hnt⟩)
              · exact hnt (scalpSignal_long_trendUp _ idf i hsig)
              · exact hnt (scalpSignal_short_trendDown _ idf i hsig)
            simp only [eq_false hfalse, and_false, if_false]
            by_cases hnext : i + 1 < idf.length
            · rw [if_pos hnext, if_pos hnext]
              exact ih (i + 2) _
            · rw [if_neg hnext, if_neg hnext]
              exact ih (i + 1) s
    · simp only [if_neg hi]

/-- C9: the confirm_trend_at_entry re-check never changes the emitted trades — the
run with the flag on equals the run with the flag off, for every configuration and
bar series. -/
theorem confirm_trend_noop (cfg : Config) (bars : List Bar) :
    runBacktest { cfg with confirmTrendAtEntry := true } bars =
    runBacktest { cfg with confirmTrendAtEntry := false } bars := by
  unfold runBacktest runBacktestFull
  rw [show computeIndicators { cfg with confirmTrendAtEntry := true } bars =
    computeIndicators { cfg with confirmTrendAtEntry := false } bars from rfl]
  rw [show initState { cfg with confirmTrendAtEntry := true } =
    initState { cfg with confirmTrendAtEntry := false } from rfl]
  rw [loop_confirm_insensitive cfg _ true false]

/-! ## Provenance of entries and exits -/

/-- Entry provenance: the entry bar is some index j ≥ 2 inside the series, the
entry time and price are that bar's timestamp and open, and the signal fired on
the bar strictly before it (index j - 1 ≥ 1). -/
def entrySpec (cfg : Config) (idf : List IndBar) (side : Side) (entry : ℚ)
    (entryTime : Ts) : Prop :=
  ∃ j, 2 ≤ j ∧ j < idf.length ∧ entryTime = (idf.getD j dfltIndBar).ts ∧
    entry = (idf.getD j dfltIndBar).openPx ∧ scalpSignal cfg idf (j - 1) = some side

/-- Invariant of the open-position slot: entry provenance plus the tp/sl levels
derived from the entry price by side. -/
def posSpec (cfg : Config) (idf : List IndBar) (p : Pos) : Prop :=
  entrySpec cfg idf p.side p.entryPrice p.entryTime ∧
  p.tp = (if p.side = Side.long then p.entryPrice + cfg.targetPoints
          else p.entryPrice - cfg.targetPoints) ∧
  p.sl = (if p.side = Side.long then p.entryPrice - cfg.stoplossPoints
          else p.entryPrice + cfg.stoplossPoints)

/-- Exit provenance: the exit bar is inside the series, and threshold exits leave
at exactly the threshold level, touched on the triggering side of the bar range. -/
def exitSpec (cfg : Config) (idf : List IndBar) (t : Trade) : Prop :=
  ∃ j, j < idf.length ∧ t.exitTime = (idf.getD j dfltIndBar).ts ∧
    (t.exitReason = ExitReason.targetHit →
      t.exit = (if t.side = Side.long then t.entry + cfg.targetPoints
                else t.entry - cfg.targetPoints) ∧
      (t.side = Side.long → t.exit ≤ (idf.getD j dfltIndBar).high) ∧
      (t.side = Side.short → (idf.getD j dfltIndBar).low ≤ t.exit)) ∧
    (t.exitReason = ExitReason.stoplossHit →
      t.exit = (if t.side = Side.long then t.entry - cfg.stoplossPoints
                else t.entry + cfg.stoplossPoints) ∧
      (t.side = Side.long → (idf.getD j dfltIndBar).low ≤ t.exit) ∧
      (t.side = Side.short → t.exit ≤ (idf.getD j dfltIndBar).high))

/-- Both provenance halves of an emitted trade. -/
def tradeSpec (cfg : Config) (idf : List IndBar) (t : Trade) : Prop :=
  entrySpec cfg idf t.side t.entry t.entryTime ∧ exitSpec cfg idf t

set_option maxHeartbeats 1600000 in
/-- Characterisation of decide_exit_this_bar: a "Target Hit" always exits at
exactly tp with tp touched on the triggering side, and a "Stoploss Hit" at exactly
sl likewise; no other reasons are produced. -/
theorem decideExit_spec (cfg : Config) (side : Side) (e : ℚ) (bar : IndBar)
    (tp sl px : ℚ) (r : ExitReason)
    (h : decideExit cfg side e bar tp sl = some (px, r)) :
    (r = ExitReason.targetHit ∨ r = ExitReason.stoplossHit) ∧
    (r = ExitReason.targetHit →
      px = tp ∧ (side = Side.long → tp ≤ bar.high) ∧ (side = Side.short → bar.low ≤ tp)) ∧
    (r = ExitReason.stoplossHit →
      px = sl ∧ (side = Side.long → bar.low ≤ sl) ∧ (side = Side.short → sl ≤ bar.high)) := by
  cases side <;>
    (unfold decideExit fallthroughExit at h
     dsimp only at h
     split_ifs at h <;>
       (try exact Option.noConfusion h) <;>
       (simp only [Option.some.injEq, Prod.mk.injEq] at h
        obtain ⟨hx, hr⟩ := h
        subst hx
        subst hr
        simp_all))

/-- The scan loop preserves trade and position provenance. -/
theorem loop_prov (cfg : Config) (idf : List IndBar) :
    ∀ (fuel i : ℕ) (s : EngState),
      (∀ t ∈ s.results, tradeSpec cfg idf t) →
      (∀ p, s.pos = some p → posSpec cfg idf p) →
      (∀ t ∈ (loop cfg idf fuel i s).results, tradeSpec cfg idf t) ∧
      (∀ p, (loop cfg idf fuel i s).pos = some p → posSpec cfg idf p) := by
  intro fuel
  induction fuel with
  | zero => intro i s hres hpos; exact ⟨hres, hpos⟩
  | succ fuel ih =>
    intro i s hres hpos
    simp only [loop]
    by_cases hi : i < idf.length
    · simp only [if_pos hi]
      cases hp : s.pos with
      | some p =>
        dsimp only
        obtain ⟨hentry, htp, hsl⟩ := hpos p hp
        cases hde : decideExit cfg p.side p.entryPrice (idf.getD i dfltIndBar) p.tp p.sl with
        | some pr =>
          obtain ⟨px, r⟩ := pr
          refine ih (i + 1) _ ?_ ?_
          · intro t ht
            unfold closeTrade at ht
            dsimp only at ht
            rw [List.mem_append, List.mem_singleton] at ht
            rcases ht with ht | ht
            · exact hres t ht
            · subst ht
              obtain ⟨hor, htgt, hstp⟩ :=
                decideExit_spec cfg p.side p.entryPrice (idf.getD i dfltIndBar) p.tp p.sl px r hde
              unfold tradeSpec exitSpec
              dsimp only
              refine ⟨hentry, i, hi, rfl, ?_, ?_⟩
              · intro hr
                obtain ⟨hpx, hl, hs⟩ := htgt hr
                exact ⟨by rw [hpx, htp], fun hsd => by rw [hpx]; exact hl hsd,
                  fun hsd => by rw [hpx]; exact hs hsd⟩
              · intro hr
                obtain ⟨hpx, hl, hs⟩ := hstp hr
                exact ⟨by rw [hpx, hsl], fun hsd => by rw [hpx]; exact hl hsd,
                  fun hsd => by rw [hpx]; exact hs hsd⟩
          · intro q hq
            simp [closeTrade] at hq
        | none =>
          split_ifs with heod
          · refine ih (i + 1) _ ?_ ?_
            · intro t ht
              unfold closeTrade at ht
              dsimp only at ht
              rw [List.mem_append, List.mem_singleton] at ht
              rcases ht with ht | ht
              · exact hres t ht
              · subst ht
                unfold tradeSpec exitSpec
                dsimp only
                exact ⟨hentry, i, hi, rfl, fun hr => ExitReason.noConfusion hr,
                  fun hr => ExitReason.noConfusion hr⟩
            · intro q hq
              simp [closeTrade] at hq
          · exact ih (i + 1) s hres hpos
      | none =>
        dsimp only
        by_cases hstop : (idf.getD i dfltIndBar).ts.date ∈ s.stoppedDays
        · rw [if_pos hstop]
          exact ih (i + 1) s hres hpos
        · rw [if_neg hstop]
          cases hsig : scalpSignal cfg idf i with
          | none => exact ih (i + 1) s hres hpos
          | some sig =>
            dsimp only
            by_cases hconf : cfg.confirmTrendAtEntry = true ∧
                ((sig = Side.long ∧ ¬ trendUp (idf.getD i dfltIndBar)) ∨
                 (sig = Side.short ∧ ¬ trendDown (idf.getD i dfltIndBar)))
            · rw [if_pos hconf]
              exact ih (i + 1) s hres hpos
            · rw [if_neg hconf]
              by_cases hnext : i + 1 < idf.length
              · rw [if_pos hnext]
                refine ih (i + 2) _ hres ?_
                intro q hq
                simp only [Option.some.injEq] at hq
                subst hq
                have hne := scalpSignal_ne_zero cfg idf i sig hsig
                refine ⟨⟨i + 1, by omega, hnext, rfl, rfl, by simpa using hsig⟩, rfl, rfl⟩
              · rw [if_neg hnext]
                exact ih (i + 1) s hres hpos
    · simp only [if_neg hi]
      exact ⟨hres, hpos⟩

/-- The four-bar demo series: signal on bar index 1, entry on bar index 2 at open
102, target touched on bar index 3. -/
def demoBars : List Bar := [demoB0, demoB1, demoB2, demoB3]

/-- The single trade the engine emits on the demo series. -/
def demoTrade : Trade :=
  { entryTime := ⟨0, 3⟩, exitTime := ⟨0, 4⟩, side := Side.long, entry := 102, exit := 112,
    pnlPoints := 10, grossRupees := 10, costsRupees := 0, pnlRupees := 10,
    equity := 100010, exitReason := ExitReason.targetHit }

/-! ## C4: the daily loss cap -/

def dfltTrade : Trade :=
  ⟨⟨0, 0⟩, ⟨0, 0⟩, Side.long, 0, 0, 0, 0, 0, 0, 0, ExitReason.targetHit⟩

/-- Realised net P&L attributed to calendar date d: the sum of pnl_rupees over the
trades whose exit date is d (the engine keys daily_pnl by the exit bar's date). -/
def dailySum (d : ℕ) (ts : List Trade) : ℚ :=
  ((ts.filter (fun t => t.exitTime.date = d)).map Trade.pnlRupees).sum

/-- The date d has hit the loss cap by emission index k: the trade at index k
exits on date d and the cumulative P&L of d over the first k+1 trades has reached
or passed the cap. This is exactly the moment run_backtest flags the date. -/
def stopCond (cap : ℚ) (d : ℕ) (ts : List Trade) (k : ℕ) : Prop :=
  k < ts.length ∧ (ts.getD k dfltTrade).exitTime.date = d ∧
    dailySum d (ts.take (k + 1)) ≤ cap

/-- Appending one trade adds its P&L to its own exit date only. -/
theorem dailySum_append (d : ℕ) (ts : List Trade) (t : Trade) :
    dailySum d (ts ++ [t]) =
      dailySum d ts + (if t.exitTime.date = d then t.pnlRupees else 0) := by
  unfold dailySum
  rw [List.filter_append, List.map_append, List.sum_append]
  by_cases h : t.exitTime.date = d <;> simp [List.filter_singleton, h]

/-- A stop condition indexed inside the prefix is unaffected by appending. -/
theorem stopCond_append (cap : ℚ) (d : ℕ) (ts : List Trade) (t : Trade) (k : ℕ)
    (hk : k < ts.length) : stopCond cap d (ts ++ [t]) k ↔ stopCond cap d ts k := by
  unfold stopCond
  rw [List.getD_append _ _ _ _ hk, List.take_append_of_le_length (by omega)]
  constructor
  · rintro ⟨-, hb, hc⟩; exact ⟨hk, hb, hc⟩
  · rintro ⟨-, hb, hc⟩; exact ⟨by simp only [List.length_append]; omega, hb, hc⟩

/-- The stop-logic invariant of the scan state at index i: the daily_pnl map agrees
with the per-date sums over the emitted trades, every prefix that hits the cap has
its date flagged, flagged dates are dates of already-scanned bars, the open
position (if any) was entered on a date not yet capped, and every emitted trade
was entered before its entry date was capped. -/
def stopInv (cfg : Config) (idf : List IndBar) (i : ℕ) (s : EngState) : Prop :=
  (∀ d, s.dailyPnl d = dailySum d s.results) ∧
  (∀ d k, stopCond cfg.dailyLossCap d s.results k → d ∈ s.stoppedDays) ∧
  (∀ d ∈ s.stoppedDays, ∃ j, j < i ∧ j < idf.length ∧ (idf.getD j dfltIndBar).ts.date = d) ∧
  (∀ p, s.pos = some p →
    ∀ k, ¬ stopCond cfg.dailyLossCap p.entryTime.date s.results k) ∧
  (∀ m k, m < s.results.length → k < m →
    ¬ stopCond cfg.dailyLossCap ((s.results.getD m dfltTrade).entryTime.date) s.results k)

/-- The invariant only loosens as the scan index grows. -/
theorem stopInv_weaken (cfg : Config) (idf : List IndBar) (i i2 : ℕ) (s : EngState)
    (h12 : i ≤ i2) (h : stopInv cfg idf i s) : stopInv cfg idf i2 s := by
  obtain ⟨h0, h1, h2, h3, h4⟩ := h
  exact ⟨h0, h1, fun d hd => by obtain ⟨j, hj, hjn, hje⟩ := h2 d hd; exact ⟨j, by omega, hjn, hje⟩,
    h3, h4⟩

/-- Closing the open position at bar i preserves the stop-logic invariant. -/
theorem closeTrade_stop_inv (cfg : Config) (idf : List IndBar) (i : ℕ)
    (hi : i < idf.length) (s : EngState) (p : Pos) (px : ℚ) (reason : ExitReason)
    (hp : s.pos = some p) (hinv : stopInv cfg idf i s) :
    stopInv cfg idf (i + 1) (closeTrade cfg s p px (idf.getD i dfltIndBar) reason) := by
  obtain ⟨h0, h1, h2, h3, h4⟩ := hinv
  unfold closeTrade stopInv
  dsimp only
  refine ⟨?_, ?_, ?_, ?_, ?_⟩
  · intro d
    rw [dailySum_append]
    dsimp only
    by_cases hd : d = (idf.getD i dfltIndBar).ts.date
    · subst hd
      rw [if_pos rfl, if_pos rfl, h0]
    · rw [if_neg hd, if_neg (fun he => hd he.symm)]
      rw [h0, add_zero]
  · intro d k hc
    by_cases hk : k < s.results.length
    · have hmem := h1 d k ((stopCond_append _ _ _ _ _ hk).mp hc)
      split_ifs <;> first
        | exact List.mem_cons_of_mem _ hmem
        | exact hmem
    · obtain ⟨hk1, hk2, hk3⟩ := hc
      have hkk : k = s.results.length := by
        simp only [List.length_append, List.length_singleton] at hk1; omega
      subst hkk
      rw [List.getD_eq_getElem _ _ (by simp), List.getElem_concat_length _ _ _ rfl] at hk2
      rw [List.take_of_length_le (by simp)] at hk3
      rw [dailySum_append] at hk3
      subst hk2
      rw [if_pos rfl] at hk3
      rw [if_pos (by rw [h0]; exact hk3)]
      exact List.mem_cons_self _ _
  · intro d hd
    by_cases hcap : s.dailyPnl (idf.getD i dfltIndBar).ts.date +
        ((if p.side = Side.long then px - p.entryPrice else p.entryPrice - px) *
            cfg.qtyPerPoint -
          (cfg.slippagePoints * cfg.qtyPerPoint * 2 + 2 * cfg.brokeragePerTrade)) ≤
        cfg.dailyLossCap
    · rw [if_pos hcap] at hd
      rcases List.mem_cons.mp hd with rfl | hd
      · exact ⟨i, by omega, hi, rfl⟩
      · obtain ⟨j, hj, hjn, hje⟩ := h2 d hd
        exact ⟨j, by omega, hjn, hje⟩
    · rw [if_neg hcap] at hd
      obtain ⟨j, hj, hjn, hje⟩ := h2 d hd
      exact ⟨j, by omega, hjn, hje⟩
  · intro q hq
    exact absurd hq (by simp)
  · intro m k hm hkm
    by_cases hmo : m < s.results.length
    · rw [List.getD_append _ _ _ _ hmo, stopCond_append _ _ _ _ _ (by omega)]
      exact h4 m k hmo hkm
    · have hmm : m = s.results.length := by
        simp only [List.length_append, List.length_singleton] at hm; omega
      subst hmm
      rw [List.getD_eq_getElem _ _ (by simp), List.getElem_concat_length _ _ _ rfl]
      rw [stopCond_append _ _ _ _ _ (by omega)]
      exact h3 p hp k

/-- The loss_stopped_days set only ever grows during the scan (the flag is never
cleared). -/
theorem loop_stopped_mono (cfg : Config) (idf : List IndBar) :
    ∀ (fuel i : ℕ) (s : EngState),
      s.stoppedDays ⊆ (loop cfg idf fuel i s).stoppedDays := by
  intro fuel
  induction fuel with
  | zero => intro i s; exact fun d hd => hd
  | succ fuel ih =>
    intro i s
    simp only [loop]
    by_cases hi : i < idf.length
    · simp only [if_pos hi]
      cases hp : s.pos with
      | some p =>
        dsimp only
        cases hde : decideExit cfg p.side p.entryPrice (idf.getD i dfltIndBar) p.tp p.sl with
        | some pr =>
          obtain ⟨px, r⟩ := pr
          intro d hd
          refine ih (i + 1) _ ?_
          unfold closeTrade
          dsimp only
          split_ifs <;> first
            | exact List.mem_cons_of_mem _ hd
            | exact hd
        | none =>
          split_ifs with heod
          · intro d hd
            refine ih (i + 1) _ ?_
            unfold closeTrade
            dsimp only
            split_ifs <;> first
              | exact List.mem_cons_of_mem _ hd
              | exact hd
          · exact ih (i + 1) s
      | none =>
        dsimp only
        by_cases hstop : (idf.getD i dfltIndBar).ts.date ∈ s.stoppedDays
        · rw [if_pos hstop]
          exact ih (i + 1) s
        · rw [if_neg hstop]
          cases hsig : scalpSignal cfg idf i with
          | none => exact ih (i + 1) s
          | some sig =>
            dsimp only
            by_cases hconf : cfg.confirmTrendAtEntry = true ∧
                ((sig = Side.long ∧ ¬ trendUp (idf.getD i dfltIndBar)) ∨
                 (sig = Side.short ∧ ¬ trendDown (idf.getD i dfltIndBar)))
            · rw [if_pos hconf]
              exact ih (i + 1) s
            · rw [if_neg hconf]
              by_cases hnext : i + 1 < idf.length
              · rw [if_pos hnext]
                intro d hd
                exact ih (i + 2) _ hd
              · rw [if_neg hnext]
                exact ih (i + 1) s
    · simp only [if_neg hi]
      exact fun d hd => hd

/-- The scan loop preserves the stop-logic invariant whenever the bar dates are
non-decreasing along the series. -/
theorem loop_stop_inv (cfg : Config) (idf : List IndBar)
    (hmon : ∀ j1 j2, j1 ≤ j2 → j2 < idf.length →
      (idf.getD j1 dfltIndBar).ts.date ≤ (idf.getD j2 dfltIndBar).ts.date) :
    ∀ (fuel i : ℕ) (s : EngState), stopInv cfg idf i s →
      ∃ i2, stopInv cfg idf i2 (loop cfg idf fuel i s) := by
  intro fuel
  induction fuel with
  | zero => intro i s h; exact ⟨i, h⟩
  | succ fuel ih =>
    intro i s hinv
    simp only [loop]
    by_cases hi : i < idf.length
    · simp only [if_pos hi]
      cases hp : s.pos with
      | some p =>
        dsimp only
        cases hde : decideExit cfg p.side p.entryPrice (idf.getD i dfltIndBar) p.tp p.sl with
        | some pr =>
          obtain ⟨px, r⟩ := pr
          exact ih (i + 1) _ (closeTrade_stop_inv cfg idf i hi s p px r hp hinv)
        | none =>
          split_ifs with heod
          · exact ih (i + 1) _ (closeTrade_stop_inv cfg idf i hi s p _ _ hp hinv)
          · exact ih (i + 1) s (stopInv_weaken cfg idf i (i + 1) s (by omega) hinv)
      | none =>
        dsimp only
        by_cases hstop : (idf.getD i dfltIndBar).ts.date ∈ s.stoppedDays
        · rw [if_pos hstop]
          exact ih (i + 1) s (stopInv_weaken cfg idf i (i + 1) s (by omega) hinv)
        · rw [if_neg hstop]
          cases hsig : scalpSignal cfg idf i with
          | none => exact ih (i + 1) s (stopInv_weaken cfg idf i (i + 1) s (by omega) hinv)
          | some sig =>
            dsimp only
            by_cases hconf : cfg.confirmTrendAtEntry = true ∧
                ((sig = Side.long ∧ ¬ trendUp (idf.getD i dfltIndBar)) ∨
                 (sig = Side.short ∧ ¬ trendDown (idf.getD i dfltIndBar)))
            · rw [if_pos hconf]
              exact ih (i + 1) s (stopInv_weaken cfg idf i (i + 1) s (by omega) hinv)
            · rw [if_neg hconf]
              by_cases hnext : i + 1 < idf.length
              · rw [if_pos hnext]
                refine ih (i + 2) _ ?_
                obtain ⟨h0, h1, h2, h3, h4⟩ := hinv
                refine ⟨h0, h1, ?_, ?_, h4⟩
                · intro d hd
                  obtain ⟨j, hj, hjn, hje⟩ := h2 d hd
                  exact ⟨j, by omega, hjn, hje⟩
                · intro q hq k hc
                  simp only [Option.some.injEq] at hq
                  subst hq
                  dsimp only at hc
                  have hd := h1 _ k hc
                  obtain ⟨j, hj, hjn, hje⟩ := h2 _ hd
                  have hji : (idf.getD j dfltIndBar).ts.date ≤
                      (idf.getD i dfltIndBar).ts.date := hmon j i (by omega) hi
                  have hin : (idf.getD i dfltIndBar).ts.date ≤
                      (idf.getD (i + 1) dfltIndBar).ts.date := hmon i (i + 1) (by omega) hnext
                  have he : (idf.getD i dfltIndBar).ts.date =
                      (idf.getD (i + 1) dfltIndBar).ts.date := by
                    rw [hje] at hji
                    omega
                  rw [← he] at hd
                  exact hstop hd
              · rw [if_neg hnext]
                exact ih (i + 1) s (stopInv_weaken cfg idf i (i + 1) s (by omega) hinv)
    · simp only [if_neg hi]
      exact ⟨i, hinv⟩

/-- Reading an index-built list of indicator rows. -/
theorem computeIndicators_length (cfg : Config) (bars : List Bar) :
    (computeIndicators cfg bars).length = bars.length := by
  simp [computeIndicators]

/-- compute_indicators never changes a bar's timestamp. -/
theorem computeIndicators_ts (cfg : Config) (bars : List Bar) (j : ℕ)
    (hj : j < bars.length) :
    ((computeIndicators cfg bars).getD j dfltIndBar).ts = (bars.getD j dfltBar).ts := by
  unfold computeIndicators
  dsimp only
  have hl : j < ((List.range bars.length).map (fun t =>
      ({ ts := (bars.getD t dfltBar).ts, openPx := (bars.getD t dfltBar).openPx,
         high := (bars.getD t dfltBar).high, low := (bars.getD t dfltBar).low,
         close := (bars.getD t dfltBar).close,
         emaFast := (emaSeries cfg.emaFast (bars.map Bar.close)).getD t 0,
         emaSlow := (emaSeries cfg.emaSlow (bars.map Bar.close)).getD t 0,
         atr := (rollingMean cfg.atrWindow (trSeries none bars)).getD t none } : IndBar))).length := by
    simpa using hj
  rw [List.getD_eq_getElem _ _ hl, List.getElem_map, List.getElem_range]

/-- Monotone bar dates transfer to the indicator rows. -/
theorem idf_dates_mono (cfg : Config) (bars : List Bar)
    (hmon : List.Pairwise (fun a b => a.ts.date ≤ b.ts.date) bars) :
    ∀ j1 j2, j1 ≤ j2 → j2 < (computeIndicators cfg bars).length →
      ((computeIndicators cfg bars).getD j1 dfltIndBar).ts.date ≤
      ((computeIndicators cfg bars).getD j2 dfltIndBar).ts.date := by
  intro j1 j2 h12 hj2
  rw [computeIndicators_length] at hj2
  have hj1 : j1 < bars.length := by omega
  rw [computeIndicators_ts cfg bars j1 hj1, computeIndicators_ts cfg bars j2 hj2]
  rcases Nat.lt_or_ge j1 j2 with hlt | hge
  · have := List.pairwise_iff_getElem.mp hmon j1 j2 hj1 hj2 hlt
    rw [List.getD_eq_getElem _ _ hj1, List.getD_eq_getElem _ _ hj2]
    exact this
  · have : j1 = j2 := by omega
    subst this
    exact le_refl _

/-- C4: with dates non-decreasing along the series, (a) the stopped-days set only
grows through the scan and is never cleared, and (b) for every emitted trade, no
earlier emission had already capped the trade's entry date — i.e. once a date's
cumulative realised P&L reaches or passes daily_loss_cap, no later trade has its
entry on that date (the exit of a position opened before the stop may still land
on it). -/
theorem daily_stop_blocks_entries (cfg : Config) (bars : List Bar)
    (hmon : List.Pairwise (fun a b => a.ts.date ≤ b.ts.date) bars) :
    (∀ (fuel i : ℕ) (s : EngState),
      s.stoppedDays ⊆ (loop cfg (computeIndicators cfg bars) fuel i s).stoppedDays) ∧
    (∀ d k, stopCond cfg.dailyLossCap d (runBacktest cfg bars) k →
      d ∈ (runBacktestFull cfg bars).stoppedDays) ∧
    (∀ m k, m < (runBacktest cfg bars).length → k < m →
      ¬ stopCond cfg.dailyLossCap
        ((runBacktest cfg bars).getD m dfltTrade).entryTime.date
        (runBacktest cfg bars) k) := by
  have hinit : stopInv cfg (computeIndicators cfg bars) 1 (initState cfg) := by
    refine ⟨fun d => by simp [initState, dailySum], ?_, ?_, ?_, ?_⟩
    · intro d k hc
      exact absurd hc.1 (by simp [initState])
    · intro d hd
      exact absurd hd (by simp [initState])
    · intro p hp
      exact absurd hp (by simp [initState])
    · intro m k hm
      exact absurd hm (by simp [initState])
  obtain ⟨i2, -, h1, -, -, h4⟩ :=
    loop_stop_inv cfg (computeIndicators cfg bars) (idf_dates_mono cfg bars hmon)
      (computeIndicators cfg bars).length 1 (initState cfg) hinit
  exact ⟨loop_stopped_mono cfg (computeIndicators cfg bars), h1, h4⟩

/-- Witness: the C4 conclusion instantiated on the demo series (all bars share one
date, so the Pairwise hypothesis holds by computation). -/
theorem daily_stop_blocks_entries_witness :
    List.Pairwise (fun a b : Bar => a.ts.date ≤ b.ts.date) demoBars ∧
    ((∀ (fuel i : ℕ) (s : EngState),
      s.stoppedDays ⊆ (loop demoCfg (computeIndicators demoCfg demoBars) fuel i s).stoppedDays) ∧
    (∀ d k, stopCond demoCfg.dailyLossCap d (runBacktest demoCfg demoBars) k →
      d ∈ (runBacktestFull demoCfg demoBars).stoppedDays) ∧
    (∀ m k, m < (runBacktest demoCfg demoBars).length → k < m →
      ¬ stopCond demoCfg.dailyLossCap
        ((runBacktest demoCfg demoBars).getD m dfltTrade).entryTime.date
        (runBacktest demoCfg demoBars) k)) :=
  by
  have hmon : List.Pairwise (fun a b : Bar => a.ts.date ≤ b.ts.date) demoBars := by decide
  exact ⟨hmon, daily_stop_blocks_entries demoCfg demoBars hmon⟩

/-! ## C1: end-of-series behaviour -/

/-- C1 counterexample: the three-bar scenario of the claim (LONG breakout on bar 2,
confirm off, target 10, stop 2, quantity 1, bar 3 touching neither threshold). The
signal engine enters at bar 3's open (102) and the scan then ends, emitting zero
trades — there is no "End of Data" force-close in run_backtest. -/
theorem end_of_data_counterexample :
    runBacktest demoCfgEod [demoB0, demoB1, demoB2] = [] ∧
    (runBacktestFull demoCfgEod [demoB0, demoB1, demoB2]).pos =
      some { side := Side.long, entryPrice := 102, entryTime := ⟨0, 3⟩, tp := 112, sl := 100 } := by
  decide

/-- C1 amended: it is the cadence dialect (random_scalp) that force-closes a
position still open when the data ends, at the last bar's close with reason
"End of Data", appending exactly one final trade. -/
theorem rs_end_of_data (sym : String) (qtyPerPoint capital : ℚ) (p : RSParams)
    (bars : List Bar) (pos : RSPos) (hne : bars ≠ [])
    (h : (rsFinal sym qtyPerPoint capital p bars).openPosition = some pos) :
    ∃ t : RSTrade,
      rsSimulate sym qtyPerPoint capital p bars =
        (rsFinal sym qtyPerPoint capital p bars).trades ++ [t] ∧
      t.exitReason = ExitReason.endOfData ∧
      t.exit = (bars.getLastD dfltBar).close ∧
      t.exitTime = (bars.getLastD dfltBar).ts ∧
      t.entry = pos.entryPrice ∧ t.entryTime = pos.entryTime := by
  unfold rsSimulate
  rw [List.isEmpty_eq_false_iff_exists_mem.mpr
    (by cases bars with | nil => exact absurd rfl hne | cons a l => exact ⟨a, by simp⟩)]
  simp only [Bool.false_eq_true, if_false, h]
  exact ⟨_, rfl, rfl, rfl, rfl, rfl, rfl⟩

/-- Witness: a two-bar cadence run that holds to the end and emits the forced
End-of-Data trade. -/
theorem rs_end_of_data_witness :
    ([demoB0, demoB2] ≠ ([] : List Bar)) ∧
    (rsFinal "X" 1 100000 demoRsParams [demoB0, demoB2]).openPosition =
      some { entryPrice := 100, entryTime := ⟨0, 1⟩ } ∧
    (∃ t : RSTrade,
      rsSimulate "X" 1 100000 demoRsParams [demoB0, demoB2] =
        (rsFinal "X" 1 100000 demoRsParams [demoB0, demoB2]).trades ++ [t] ∧
      t.exitReason = ExitReason.endOfData ∧
      t.exit = ([demoB0, demoB2].getLastD dfltBar).close ∧
      t.exitTime = ([demoB0, demoB2].getLastD dfltBar).ts ∧
      t.entry = (100 : ℚ) ∧ t.entryTime = (⟨0, 1⟩ : Ts)) :=
  ⟨by decide, by decide, rs_end_of_data "X" 1 100000 demoRsParams [demoB0, demoB2]
    { entryPrice := 100, entryTime := ⟨0, 1⟩ } (by decide) (by decide)⟩

/-! ## C2: threshold exits and the exit bar's range -/

/-- C2 counterexample: on a bar that gaps above the target, the emitted trade exits
at the target threshold 112 with reason "Target Hit", yet the exit bar's low is 118,
so the threshold lies outside [low, high] of the exit bar. -/
theorem threshold_in_range_counterexample :
    ∃ t ∈ runBacktest demoCfg [demoB0, demoB1, demoB2, demoB3gap],
      t.exitReason = ExitReason.targetHit ∧ t.exitTime = demoB3gap.ts ∧
      t.exit = 112 ∧ t.exit < demoB3gap.low := by
  decide

/-- C2 amended: for every emitted Trade with a Target Hit or Stoploss Hit reason,
the exit price equals exactly the corresponding threshold (entry ± target_points or
entry ∓ stoploss_points by side), and the threshold is touched on the triggering
side of the exit bar's range (target: high ≥ level for LONG, low ≤ level for SHORT;
stop: low ≤ level for LONG, high ≥ level for SHORT). Containment in the full
[low, high] interval fails on gap bars, as the counterexample shows. -/
theorem threshold_exit_amended (cfg : Config) (bars : List Bar) :
    ∀ t ∈ runBacktest cfg bars, exitSpec cfg (computeIndicators cfg bars) t := by
  intro t ht
  have h := loop_prov cfg (computeIndicators cfg bars)
    (computeIndicators cfg bars).length 1 (initState cfg)
    (by intro u hu; simp [initState] at hu)
    (by intro q hq; simp [initState] at hq)
  exact (h.1 t ht).2

/-- Witness: the amended exit provenance holds of the demo trade. -/
theorem threshold_exit_amended_witness :
    demoTrade ∈ runBacktest demoCfg demoBars ∧
    exitSpec demoCfg (computeIndicators demoCfg demoBars) demoTrade :=
  ⟨by decide, threshold_exit_amended demoCfg demoBars demoTrade (by decide)⟩

/-! ## C3: entries strictly after the signal bar -/

/-- C3: every emitted Trade was entered at the open of the bar one past its signal
bar (entry_time and entry price are that bar's), the signal bar index is j - 1 ≥ 1,
and the same holds for a position still open at the end of the scan — in
particular a position only ever opens when a bar follows the signal bar
(j < length). -/
theorem entry_strictly_after_signal (cfg : Config) (bars : List Bar) :
    (∀ t ∈ runBacktest cfg bars,
      entrySpec cfg (computeIndicators cfg bars) t.side t.entry t.entryTime) ∧
    (∀ p, (runBacktestFull cfg bars).pos = some p →
      entrySpec cfg (computeIndicators cfg bars) p.side p.entryPrice p.entryTime) := by
  have h := loop_prov cfg (computeIndicators cfg bars)
    (computeIndicators cfg bars).length 1 (initState cfg)
    (by intro u hu; simp [initState] at hu)
    (by intro q hq; simp [initState] at hq)
  exact ⟨fun t ht => (h.1 t ht).1, fun p hp => (h.2 p hp).1⟩

/-- Witness: entry provenance of the demo trade. -/
theorem entry_strictly_after_signal_witness :
    demoTrade ∈ runBacktest demoCfg demoBars ∧
    entrySpec demoCfg (computeIndicators demoCfg demoBars) demoTrade.side demoTrade.entry
      demoTrade.entryTime :=
  ⟨by decide, (entry_strictly_after_signal demoCfg demoBars).1 demoTrade (by decide)⟩

/-! ## C6: non-positive stoploss -/

/-- C6 counterexample: the signal engine accepts stoploss_points = 0 but the stop
check is not disabled: the stop level sits at the entry price and a bar dipping to
it produces a "Stoploss Hit" trade. -/
theorem zero_stop_counterexample :
    demoCfgZeroStop.stoplossPoints ≤ 0 ∧
    ∃ t ∈ runBacktest demoCfgZeroStop [demoB0, demoB1, demoB2, demoB3dip],
      t.exitReason = ExitReason.stoplossHit := by
  decide

/-- With a non-positive stop distance the cadence dialect's exit decision never
reports a stoploss (the stop price is None and the branch is skipped). -/
theorem rsExitDecision_no_stop (p : RSParams) (pos : RSPos) (b : Bar)
    (hp : p.stopLossRupees ≤ 0) (px : ℚ) (r : ExitReason)
    (h : rsExitDecision p pos b = some (px, r)) : r ≠ ExitReason.stoplossHit := by
  unfold rsExitDecision at h
  rw [if_neg (not_lt.mpr hp)] at h
  dsimp only at h
  split_ifs at h <;> try simp_all
  all_goals (rcases h with ⟨-, rfl⟩; simp)

/-- One cadence step preserves "no trade so far exited by stoploss" whenever the
stop distance is non-positive. -/
theorem rsStep_no_stop (sym : String) (p : RSParams) (qtyRupees costs : ℚ)
    (gap idx : ℕ) (b : Bar) (s : RSState) (hp : p.stopLossRupees ≤ 0)
    (hs : ∀ t ∈ s.trades, t.exitReason ≠ ExitReason.stoplossHit) :
    ∀ t ∈ (rsStep sym p qtyRupees costs gap idx b s).trades,
      t.exitReason ≠ ExitReason.stoplossHit := by
  intro t ht
  unfold rsStep at ht
  cases hpos : s.openPosition with
  | none =>
    simp only [hpos] at ht
    try dsimp only at ht
    split_ifs at ht <;> (try dsimp only at ht) <;> exact hs t ht
  | some pos =>
    simp only [hpos] at ht
    cases hex : rsExitDecision p pos b with
    | some pr =>
      obtain ⟨px, r⟩ := pr
      simp only [hex] at ht
      try dsimp only at ht
      split_ifs at ht <;>
        (try dsimp only at ht) <;>
        (simp only [List.mem_append, List.mem_singleton] at ht
         rcases ht with ht | ht
         · exact hs t ht
         · subst ht; exact rsExitDecision_no_stop p pos b hp px r hex)
    | none =>
      simp only [hex] at ht
      try dsimp only at ht
      split_ifs at ht <;> (try dsimp only at ht) <;>
        first
          | exact hs t ht
          | (simp only [List.mem_append, List.mem_singleton] at ht
             rcases ht with ht | ht
             · exact hs t ht
             · subst ht; simp [rsMkTrade])

/-- The whole cadence fold preserves the no-stoploss property. -/
theorem rsLoop_no_stop (sym : String) (p : RSParams) (qtyRupees costs : ℚ) (gap : ℕ)
    (hp : p.stopLossRupees ≤ 0) :
    ∀ (bars : List Bar) (idx : ℕ) (s : RSState),
      (∀ t ∈ s.trades, t.exitReason ≠ ExitReason.stoplossHit) →
      ∀ t ∈ (rsLoop sym p qtyRupees costs gap idx s bars).trades,
        t.exitReason ≠ ExitReason.stoplossHit := by
  intro bars
  induction bars with
  | nil => intro idx s hs; exact hs
  | cons b rest ih =>
    intro idx s hs
    exact ih (idx + 1) _ (rsStep_no_stop sym p qtyRupees costs gap idx b s hp hs)

/-- C6 amended: in the cadence dialect (random_scalp) a non-positive stop_loss
really does disable the stop check — no emitted trade ever has exit_reason
"Stoploss Hit". -/
theorem rs_zero_stop_no_stoploss (sym : String) (qtyPerPoint capital : ℚ)
    (p : RSParams) (bars : List Bar) (hp : p.stopLossRupees ≤ 0) :
    ∀ t ∈ rsSimulate sym qtyPerPoint capital p bars,
      t.exitReason ≠ ExitReason.stoplossHit := by
  intro t ht
  unfold rsSimulate at ht
  split_ifs at ht with hemp
  · simp at ht
  · have hfin : ∀ u ∈ (rsFinal sym qtyPerPoint capital p bars).trades,
        u.exitReason ≠ ExitReason.stoplossHit := by
      unfold rsFinal
      exact rsLoop_no_stop sym p _ _ _ hp bars 0 _ (by intro u hu; simp at hu)
    dsimp only at ht
    cases hpos : (rsFinal sym qtyPerPoint capital p bars).openPosition with
    | none => rw [hpos] at ht; exact hfin t ht
    | some pos =>
      rw [hpos] at ht
      try dsimp only at ht
      simp only [List.mem_append, List.mem_singleton] at ht
      rcases ht with ht | ht
      · exact hfin t ht
      · subst ht; simp [rsMkTrade]

/-- Witness: a zero-stop cadence run whose trades (here the forced End-of-Data
close) indeed contain no stoploss exit. -/
theorem rs_zero_stop_no_stoploss_witness :
    demoRsZeroStop.stopLossRupees ≤ 0 ∧
    ∀ t ∈ rsSimulate "X" 1 100000 demoRsZeroStop [demoB0, demoB2],
      t.exitReason ≠ ExitReason.stoplossHit :=
  ⟨by decide,
    rs_zero_stop_no_stoploss "X" 1 100000 demoRsZeroStop [demoB0, demoB2] (by decide)⟩

/-! ## C7: true range and ATR definedness -/

/-- C7 counterexample: with two bars and atr_window = 2, TR[0] is NaN (none), not
the claimed high[0]-low[0] = 1, and the ATR is still NaN at index 1 even though
atr_window bars exist, because the rolling window contains the NaN TR[0]. -/
theorem true_range_counterexample :
    (trSeries none [demoB0, demoB1]).getD 0 none = none ∧
    demoB0.high - demoB0.low = 1 ∧
    rollingMean 2 (trSeries none [demoB0, demoB1]) = [none, none] := by
  decide

/-- The true-range column has the same length as the input. -/
theorem trSeries_length (pc : Option ℚ) (bars : List Bar) :
    (trSeries pc bars).length = bars.length := by
  induction bars generalizing pc with
  | nil => cases pc <;> rfl
  | cons b bs ih => cases pc <;> simp [trSeries, ih]

/-- Indexing the true-range column past the head steps into the tail series seeded
with the head bar's close. -/
theorem trSeries_getD_succ (pc : Option ℚ) (b : Bar) (bs : List Bar) (t : ℕ) :
    (trSeries pc (b :: bs)).getD (t + 1) none = (trSeries (some b.close) bs).getD t none := by
  cases pc <;> rfl

/-- Explicit value of the true-range column when the previous close is known. -/
theorem trSeries_some_getD (bs : List Bar) : ∀ (pc : ℚ) (t : ℕ), t < bs.length →
    (trSeries (some pc) bs).getD t none =
      some (max ((bs.getD t dfltBar).high - (bs.getD t dfltBar).low)
        (max |(bs.getD t dfltBar).high - (if t = 0 then pc else (bs.getD (t - 1) dfltBar).close)|
             |(bs.getD t dfltBar).low - (if t = 0 then pc else (bs.getD (t - 1) dfltBar).close)|)) := by
  induction bs with
  | nil => intro pc t ht; simp at ht
  | cons b rest ih =>
    intro pc t ht
    cases t with
    | zero => rfl
    | succ v =>
      rw [trSeries_getD_succ, ih b.close v (by simpa using ht)]
      cases v with
      | zero => rfl
      | succ u => rfl

/-- Sequencing a NaN-free window succeeds. -/
theorem seqOpt_of_no_none (l : List (Option ℚ)) (h : ∀ x ∈ l, x ≠ none) :
    ∃ vs, seqOpt l = some vs := by
  induction l with
  | nil => exact ⟨[], rfl⟩
  | cons x xs ih =>
    cases x with
    | none => exact absurd rfl (h none (by simp))
    | some v =>
      obtain ⟨vs, hvs⟩ := ih (fun y hy => h y (by simp [hy]))
      exact ⟨v :: vs, by simp [seqOpt, hvs]⟩

/-- Reading the rolling mean at an in-range index gives the windowed value. -/
theorem rollingMean_getD (w : ℕ) (xs : List (Option ℚ)) (t : ℕ) (ht : t < xs.length) :
    (rollingMean w xs).getD t none =
      (if t + 1 < w then none
       else
         match seqOpt ((xs.take (t + 1)).drop (t + 1 - w)) with
         | none => none
         | some vs => some (vs.sum / (w : ℚ))) := by
  unfold rollingMean
  have hl : t < ((List.range xs.length).map (fun t =>
      if t + 1 < w then none
      else
        match seqOpt ((xs.take (t + 1)).drop (t + 1 - w)) with
        | none => none
        | some vs => some (vs.sum / (w : ℚ)))).length := by simpa using ht
  rw [List.getD_eq_getElem _ _ hl, List.getElem_map, List.getElem_range]

/-- C7 amended: TR[t] for t ≥ 1 is exactly
max(high-low, |high-prev close|, |low-prev close|), but TR[0] is NaN (none), and
the ATR is NaN at index atr_window - 1 (atr_window bars) and first defined at
index atr_window (atr_window + 1 bars). -/
theorem true_range_amended (bars : List Bar) :
    (bars ≠ [] → (trSeries none bars).getD 0 none = none) ∧
    (∀ t, t + 1 < bars.length →
      (trSeries none bars).getD (t + 1) none =
        some (max ((bars.getD (t + 1) dfltBar).high - (bars.getD (t + 1) dfltBar).low)
          (max |(bars.getD (t + 1) dfltBar).high - (bars.getD t dfltBar).close|
               |(bars.getD (t + 1) dfltBar).low - (bars.getD t dfltBar).close|))) ∧
    (∀ w, 1 ≤ w → w - 1 < bars.length →
      (rollingMean w (trSeries none bars)).getD (w - 1) none = none) ∧
    (∀ w t, 1 ≤ w → w ≤ t → t < bars.length →
      ∃ v, (rollingMean w (trSeries none bars)).getD t none = some v) := by
  refine ⟨?_, ?_, ?_, ?_⟩
  · intro hne
    cases bars with
    | nil => exact absurd rfl hne
    | cons b bs => rfl
  · intro t ht
    cases bars with
    | nil => simp at ht
    | cons b bs =>
      rw [trSeries_getD_succ, trSeries_some_getD bs b.close t (by simpa using ht)]
      cases t with
      | zero => rfl
      | succ u => rfl
  · intro w hw hwlen
    cases bars with
    | nil => simp at hwlen
    | cons b bs =>
      have hxlen : w - 1 < (trSeries none (b :: bs)).length := by
        rw [trSeries_length]; simpa using hwlen
      rw [rollingMean_getD w _ (w - 1) hxlen]
      obtain ⟨u, rfl⟩ : ∃ u, w = u + 1 := ⟨w - 1, (Nat.succ_pred_eq_of_pos hw).symm⟩
      simp only [Nat.add_sub_cancel, Nat.sub_self, List.drop_zero]
      rw [if_neg (by omega)]
      have : (trSeries none (b :: bs)).take (u + 1) =
          none :: (trSeries (some b.close) bs).take u := by
        simp [trSeries]
      rw [this]
      rfl
  · intro w t hw hwt htlen
    have hxlen : t < (trSeries none bars).length := by
      rw [trSeries_length]; exact htlen
    rw [rollingMean_getD w _ t hxlen]
    rw [if_neg (by omega)]
    have hwin : ∀ x ∈ ((trSeries none bars).take (t + 1)).drop (t + 1 - w), x ≠ none := by
      intro x hx
      obtain ⟨j, hj, hxj⟩ := List.getElem_of_mem hx
      rw [List.getElem_drop, List.getElem_take] at hxj
      set idx := t + 1 - w + j with hidx
      have hjlt : j < w := by
        have hlen1 : (((trSeries none bars).take (t + 1)).drop (t + 1 - w)).length =
            ((trSeries none bars).take (t + 1)).length - (t + 1 - w) := List.length_drop _ _
        have hlen2 : ((trSeries none bars).take (t + 1)).length = t + 1 := by
          rw [List.length_take]
          have : t + 1 ≤ (trSeries none bars).length := by omega
          omega
        omega
      have hidx1 : 1 ≤ idx := by omega
      have hidxlt : idx < bars.length := by omega
      cases bars with
      | nil => simp at htlen
      | cons b bs =>
        obtain ⟨k, hk⟩ : ∃ k, idx = k + 1 := ⟨idx - 1, by omega⟩
        have hgd : (trSeries none (b :: bs)).getD idx none =
            (trSeries (some b.close) bs).getD k none := by
          rw [hk]; exact trSeries_getD_succ none b bs k
        have hkbs : k < bs.length := by
          have := htlen; simp only [List.length_cons] at this ⊢; omega
        have hval := trSeries_some_getD bs b.close k hkbs
        have hgde : (trSeries none (b :: bs)).getD idx none = (trSeries none (b :: bs))[idx] := by
          apply List.getD_eq_getElem
        rw [← hxj, ← hgde, hgd, hval]
        simp
    obtain ⟨vs, hvs⟩ := seqOpt_of_no_none _ hwin
    rw [hvs]
    exact ⟨vs.sum / (w : ℚ), rfl⟩

/-- Witness: the amended TR/ATR facts evaluated on the three-bar demo series with
atr_window 1 and 2. -/
theorem true_range_amended_witness :
    ((trSeries none [demoB0, demoB1, demoB2]).getD 0 none = none) ∧
    ((trSeries none [demoB0, demoB1, demoB2]).getD 1 none =
      some (max (([demoB0, demoB1, demoB2].getD 1 dfltBar).high -
          ([demoB0, demoB1, demoB2].getD 1 dfltBar).low)
        (max |([demoB0, demoB1, demoB2].getD 1 dfltBar).high -
            ([demoB0, demoB1, demoB2].getD 0 dfltBar).close|
             |([demoB0, demoB1, demoB2].getD 1 dfltBar).low -
            ([demoB0, demoB1, demoB2].getD 0 dfltBar).close|))) ∧
    ((rollingMean 2 (trSeries none [demoB0, demoB1, demoB2])).getD 1 none = none) ∧
    (∃ v, (rollingMean 1 (trSeries none [demoB0, demoB1, demoB2])).getD 1 none = some v) :=
  ⟨(true_range_amended [demoB0, demoB1, demoB2]).1 (by decide),
   (true_range_amended [demoB0, demoB1, demoB2]).2.1 0 (by decide),
   (true_range_amended [demoB0, demoB1, demoB2]).2.2.1 2 (by decide) (by decide),
   (true_range_amended [demoB0, demoB1, demoB2]).2.2.2 1 1 (by decide) (by decide) (by decide)⟩

end TG
